import Mathlib

/-!
# dockerutil: cron jobs derived from container labels

A shallow embedding of `main.go`.  The program keeps three pieces of mutable
state behind `CronManager`: the docker client, the gocron scheduler and the
buffered channel of tasks.  Here

* the scheduler is the list of its registered jobs plus the list of `RunNow`
  requests it has received,
* the channel is a FIFO list with a capacity,
* the docker client is the trace of the state-changing requests sent to the
  runtime (exec creations, restarts); the answers of the runtime and of the
  cron-expression parser are an explicit environment `Env`,
* zerolog output is the list of logged messages,
* strings are sequences of characters; both separators the program splits at
  (the dot and the space) are single characters.

A Go `map[string]string` is a list of key/value pairs with pairwise distinct
keys; the order of the list is the order in which `range` visits the map, so a
statement about every iteration order is a statement about every permutation.
-/

namespace Dockerutil

/-! ## Strings -/

/-- Pieces of `s` between successive occurrences of the separator, as Go's
`strings.Split` with a one-character separator yields them: `n` separators give
`n + 1` pieces, empty pieces included. -/
def splitChars (sep : Char) : List Char → List (List Char)
  | [] => [[]]
  | c :: cs =>
    if c = sep then [] :: splitChars sep cs
    else (c :: (splitChars sep cs).headD []) :: (splitChars sep cs).tail

/-- Go `strings.Split(s, sep)` for a one-character `sep`. -/
def Split (s : String) (sep : Char) : List String :=
  (splitChars sep s.data).map String.mk

/-- Go `strings.HasPrefix(s, p)`. -/
def HasPrefix (s p : String) : Bool :=
  p.data.isPrefixOf s.data

/-- A label map (`map[string]string`), in iteration order. -/
abbrev Labels := List (String × String)

/-- Go map indexing `labels[key]`: the zero value `""` when the key is absent. -/
def labelValue (labels : Labels) (key : String) : String :=
  (labels.lookup key).getD ""

/-! ## Data model -/

/-- The queue element `cronJobTask`. -/
structure cronJobTask where
  containerID : String
  cmd : String
deriving DecidableEq, Repr

/-- The buffered channel `chan cronJobTask` made by `make(chan cronJobTask, queueSize)`. -/
structure Chan where
  items : List cronJobTask
  queueSize : Nat
deriving DecidableEq, Repr

/-- Channel send `ch <- task`: appends when the buffer has room; `none` when the
buffer is full, where the sender stays blocked and nothing changes. -/
def Chan.send (ch : Chan) (task : cronJobTask) : Option Chan :=
  if ch.items.length < ch.queueSize then some { ch with items := ch.items ++ [task] } else none

/-- Channel receive `<-ch`: the oldest element; `none` when the buffer is empty
(the receiver stays blocked). -/
def Chan.recv (ch : Chan) : Option (cronJobTask × Chan) :=
  match ch.items with
  | [] => none
  | t :: ts => some (t, { ch with items := ts })

/-- A job held by the gocron scheduler: its name (`WithName`), its tags
(`WithTags`), its cron expression and its task function.  The task functions
built by this program only touch the manager's channel. -/
structure Job where
  name : String
  tags : List String
  cronSpec : String
  task : Chan → Option Chan

/-- The gocron scheduler: the registered jobs, oldest first, and the jobs for
which `RunNow` has been requested, oldest first. -/
structure Scheduler where
  jobs : List Job
  runNow : List Job

/-- The state-changing requests the docker client has sent: exec creations
(container, argument list) and restarts (container). -/
structure Client where
  execs : List (String × List String)
  restarts : List String
deriving DecidableEq, Repr

/-- The `CronManager` of the program, with the log output next to it. -/
structure CronManager where
  cli : Client
  scheduler : Scheduler
  queue : Chan
  log : List String

/-- Answers of the collaborators: the container runtime and the cron-expression
check made by `gocron.NewJob`. -/
structure Env where
  /-- Answer of `ContainerList`: the IDs of the listed containers, `none` on error. -/
  containerList : Option (List String)
  /-- Answer of `ContainerInspect`: the labels of the container, `none` on error. -/
  inspect : String → Option Labels
  /-- Answer of `ContainerExecCreate`: the exec ID, `none` on error. -/
  execCreate : String → List String → Option String
  /-- Answer of `ContainerExecAttach`: the output lines of the exec, `none` on error. -/
  execAttach : String → Option (List String)
  /-- Answer of `ContainerRestart`: whether it returned no error. -/
  restartOk : String → Bool
  /-- Whether `NewJob` accepts this cron expression and job name. -/
  jobOk : String → String → Bool

/-- An event of the docker event stream (`events.Message`). -/
structure Message where
  type : String
  action : String
  actorID : String
  attributes : Labels

/-- The constant `events.ContainerEventType`. -/
def ContainerEventType : String := "container"

/-! ## Scheduler operations used by the program -/

/-- Scheduler `NewJob(CronJob(cronSpec, false), NewTask(task), WithTags(tag), WithName(name))`:
a new entry is added when the definition is accepted, otherwise an error and no change. -/
def NewJob (env : Env) (s : Scheduler) (cronSpec : String) (task : Chan → Option Chan)
    (tag name : String) : Option (Job × Scheduler) :=
  if env.jobOk cronSpec name then
    let job : Job := { name := name, tags := [tag], cronSpec := cronSpec, task := task }
    some (job, { s with jobs := s.jobs ++ [job] })
  else none

/-- Job `RunNow()`: the request is handed to the scheduler, which runs the job's
task function on its own thread. -/
def RunNow (s : Scheduler) (job : Job) : Scheduler :=
  { s with runNow := s.runNow ++ [job] }

/-- Scheduler `RemoveByTags(tag)`: every job carrying the tag is removed. -/
def RemoveByTags (s : Scheduler) (tag : String) : Scheduler :=
  { s with jobs := s.jobs.filter (fun j => !(j.tags.contains tag)) }

/-- One run of a job's task function by the scheduler (a scheduled firing or
the run asked for by `RunNow`). -/
def fire (cm : CronManager) (job : Job) : Option CronManager :=
  (job.task cm.queue).map (fun q => { cm with queue := q })

/-! ## The program -/

/-- The method `CronManager.Enqueue`. -/
def CronManager.Enqueue (cm : CronManager) (task : cronJobTask) : Option CronManager :=
  (cm.queue.send task).map (fun q => { cm with queue := q })

/-- The method `CronManager.Dequeue`. -/
def CronManager.Dequeue (cm : CronManager) : Option (cronJobTask × CronManager) :=
  (cm.queue.recv).map (fun r => (r.1, { cm with queue := r.2 }))

/-- Appends one message to the log. -/
def logMsg (cm : CronManager) (msg : String) : CronManager :=
  { cm with log := cm.log ++ [msg] }

/-- The function `removeCronJobByTag`. -/
def removeCronJobByTag (cm : CronManager) (containerID : String) : CronManager :=
  logMsg { cm with scheduler := RemoveByTags cm.scheduler containerID } "All cron jobs removed"

/-- The `for label := range inspect.Config.Labels` loop of `createCronJobs`,
over the keys still to visit.  `continue` goes on with the remaining keys,
`return` ends the loop with the state reached. -/
def createCronJobsLoop (env : Env) (containerID : String) (labels : Labels) :
    List String → CronManager → CronManager
  | [], cm => cm
  | label :: rest, cm =>
    if HasPrefix label "dockerutil.cron." then
      let parts := Split label '.'
      if parts.length ≠ 3 then
        createCronJobsLoop env containerID labels rest cm
      else
        let taskName := parts.getD 2 ""
        let cronSpec := labelValue labels ("dockerutil.cron." ++ taskName ++ ".spec")
        let cronCmd := labelValue labels ("dockerutil.cron." ++ taskName ++ ".cmd")
        match NewJob env cm.scheduler cronSpec
            (fun q => q.send { containerID := containerID, cmd := cronCmd })
            containerID taskName with
        | none => logMsg cm "Failed to add cron job"
        | some (job, s) =>
          let cm1 := logMsg { cm with scheduler := s } "Added cron job"
          let cm2 :=
            if labelValue labels ("dockerutil.cron." ++ taskName) = "true" then
              { cm1 with scheduler := RunNow cm1.scheduler job }
            else cm1
          createCronJobsLoop env containerID labels rest cm2
    else
      createCronJobsLoop env containerID labels rest cm

/-- The function `createCronJobs`. -/
def createCronJobs (env : Env) (containerID : String) (cm : CronManager) : CronManager :=
  match env.inspect containerID with
  | none => logMsg cm "Failed to inspect container"
  | some labels => createCronJobsLoop env containerID labels (labels.map Prod.fst) cm

/-- The function `listContainersAndCreateCronJobs`; `none` is the returned error. -/
def listContainersAndCreateCronJobs (env : Env) (cm : CronManager) : Option CronManager :=
  match env.containerList with
  | none => none
  | some containers => some (containers.foldl (fun c id => createCronJobs env id c) cm)

/-- The function `restartUnhealthyContainer`; the boolean is `err == nil`. -/
def restartUnhealthyContainer (env : Env) (cm : CronManager) (containerID : String) :
    Bool × CronManager :=
  match env.inspect containerID with
  | none => (false, cm)
  | some labels =>
    if labelValue labels "dockerutil.autoheal" = "true" then
      let cm1 := { cm with cli := { cm.cli with restarts := cm.cli.restarts ++ [containerID] } }
      if env.restartOk containerID then (true, logMsg cm1 "Container restarted successfully")
      else (false, cm1)
    else (true, cm)

/-- The function `handleEvent`. -/
def handleEvent (env : Env) (event : Message) (cm : CronManager) : CronManager :=
  if event.type ≠ ContainerEventType then cm
  else
    let containerID := event.actorID
    if event.action = "start" then
      createCronJobs env containerID (logMsg cm "Container started")
    else if event.action = "die" ∨ event.action = "stop" then
      removeCronJobByTag (logMsg cm "Container stopped") containerID
    else if event.action = "health_status" then
      if labelValue event.attributes "health_status" = "unhealthy" then
        let r := restartUnhealthyContainer env (logMsg cm "Container is unhealthy, restarting")
          containerID
        if r.1 then r.2 else logMsg r.2 "Failed to restart container"
      else cm
    else cm

/-- The method `CronManager.execCronJob`. -/
def CronManager.execCronJob (env : Env) (cm : CronManager) (task : cronJobTask) : CronManager :=
  let cmd := Split task.cmd ' '
  let cm0 := { cm with cli := { cm.cli with execs := cm.cli.execs ++ [(task.containerID, cmd)] } }
  match env.execCreate task.containerID cmd with
  | none => removeCronJobByTag (logMsg cm0 "Failed to execute cron job") task.containerID
  | some execID =>
    match env.execAttach execID with
    | none => logMsg cm0 "Failed attaching to container for execute cron job output"
    | some lines =>
      { cm0 with log := cm0.log ++ ["Cron job command output for container:"] ++ lines }

/-- One turn of the `HandleQueue` loop on its receive branch: take the oldest
task and execute it; `none` when the queue is empty (the loop waits). -/
def CronManager.HandleQueueStep (env : Env) (cm : CronManager) : Option CronManager :=
  match cm.Dequeue with
  | none => none
  | some (task, cm1) => some (CronManager.execCronJob env cm1 task)

/-! ## Derived notions used in the statements -/

/-- The task name a label key gives rise to in the loop of `createCronJobs`:
the key passes the `HasPrefix` test and splits into exactly three parts. -/
def taskOf (label : String) : Option String :=
  if HasPrefix label "dockerutil.cron." = true ∧ (Split label '.').length = 3 then
    some ((Split label '.').getD 2 "")
  else none

/-- The job `createCronJobs` asks the scheduler to add for a task name. -/
def jobFor (containerID : String) (labels : Labels) (taskName : String) : Job where
  name := taskName
  tags := [containerID]
  cronSpec := labelValue labels ("dockerutil.cron." ++ taskName ++ ".spec")
  task := fun q =>
    q.send { containerID := containerID,
             cmd := labelValue labels ("dockerutil.cron." ++ taskName ++ ".cmd") }

/-- Whether the scheduler accepts the job of a task name. -/
def accepted (env : Env) (labels : Labels) (taskName : String) : Bool :=
  env.jobOk (labelValue labels ("dockerutil.cron." ++ taskName ++ ".spec")) taskName

/-- The task names whose jobs the loop registers when it visits `keys` in order:
the candidates up to the first one the scheduler refuses. -/
def registeredTasks (env : Env) (labels : Labels) (keys : List String) : List String :=
  (keys.filterMap taskOf).takeWhile (accepted env labels)

/-- The jobs a call of `createCronJobs` adds: the entries of the job table past
the ones that were there before the call. -/
def registered (env : Env) (containerID : String) (cm : CronManager) : List Job :=
  (createCronJobs env containerID cm).scheduler.jobs.drop cm.scheduler.jobs.length

/-- The `RunNow` requests a call of `createCronJobs` issues. -/
def runRequested (env : Env) (containerID : String) (cm : CronManager) : List Job :=
  (createCronJobs env containerID cm).scheduler.runNow.drop cm.scheduler.runNow.length

/-- A label key of the exact form `dockerutil.cron.<single-segment>`, in the
words of the specification: exactly three dot-separated segments, the first
two being `dockerutil` and `cron`. -/
def isCronTaskKey (key : String) : Bool :=
  match Split key '.' with
  | [a, b, _] => a = "dockerutil" ∧ b = "cron"
  | _ => false

/-- The jobs a call of `createCronJobs` adds, as a function of the environment
alone. -/
def addedJobs (env : Env) (containerID : String) : List Job :=
  match env.inspect containerID with
  | none => []
  | some labels =>
    (registeredTasks env labels (labels.map Prod.fst)).map (jobFor containerID labels)

/-- Every job of the table carries exactly one tag, as all jobs made by
`createCronJobs` do. -/
def SingleTagged (cm : CronManager) : Prop :=
  ∀ j ∈ cm.scheduler.jobs, ∃ c, j.tags = [c]

/-! ## Concrete inputs used in examples -/

/-- A sample cron-expression check standing for the parser of the scheduler
library: five or six non-empty space-separated fields. -/
def fieldsCronOk (cronSpec : String) : Bool :=
  let fs := Split cronSpec ' '
  (fs.length = 5 ∨ fs.length = 6) ∧ fs.all (fun f => f ≠ "")

/-- A sample environment: the runtime answers every inspect with the given
labels, exec creation and attach succeed, and the scheduler accepts a job when
its name is non-empty and its cron expression has five or six fields. -/
def sampleEnv (labels : Labels) : Env where
  containerList := some []
  inspect := fun _ => some labels
  execCreate := fun _ _ => some "exec0"
  execAttach := fun _ => some []
  restartOk := fun _ => true
  jobOk := fun spec name => fieldsCronOk spec && name ≠ ""

/-- The state right after `NewCronManager(cli, &scheduler, 100)`. -/
def NewCronManager (queueSize : Nat) : CronManager where
  cli := { execs := [], restarts := [] }
  scheduler := { jobs := [], runNow := [] }
  queue := { items := [], queueSize := queueSize }
  log := []

/-- The labels of the end-to-end `backup` scenario. -/
def backupLabels : Labels :=
  [("dockerutil.cron.backup.spec", "0 2 * * *"),
   ("dockerutil.cron.backup.cmd", "tar -czf /backup.tgz /data"),
   ("dockerutil.cron.backup", "true")]

/-- Name, tags and cron expression of each job, for comparing job lists. -/
def jobInfo (jobs : List Job) : List (String × List String × String) :=
  jobs.map (fun j => (j.name, j.tags, j.cronSpec))

/-- The labels of five tasks whose bare toggles are `true`, `True`, `1`, the
empty string and `TRUE`. -/
def toggleLabels : Labels :=
  [("dockerutil.cron.a", "true"), ("dockerutil.cron.a.spec", "* * * * *"),
   ("dockerutil.cron.b", "True"), ("dockerutil.cron.b.spec", "* * * * *"),
   ("dockerutil.cron.c", "1"), ("dockerutil.cron.c.spec", "* * * * *"),
   ("dockerutil.cron.d", ""), ("dockerutil.cron.d.spec", "* * * * *"),
   ("dockerutil.cron.e", "TRUE"), ("dockerutil.cron.e.spec", "* * * * *")]

/-- Labels whose `dockerutil` keys are all of another shape than
`dockerutil.cron.<single-segment>`. -/
def otherShapeLabels : Labels :=
  [("dockerutil.cron", "true"), ("dockerutil.cron.a.b.c", "true"),
   ("dockerutil.cron.a.spec", "* * * * *"), ("dockerutil.cron.a.cmd", "true"),
   ("dockerutil.timer.a", "true"), ("other.cron.a", "true"), ("dockerutil.cron.b.c", "true")]

/-- Labels of two tasks: `a` with a malformed cron expression, `b` well formed. -/
def siblingLabels : Labels :=
  [("dockerutil.cron.a", "true"), ("dockerutil.cron.a.spec", "not-a-cron"),
   ("dockerutil.cron.b", "true"), ("dockerutil.cron.b.spec", "0 2 * * *"),
   ("dockerutil.cron.b.cmd", "echo hi")]

/-- The sample environment with a failing `ContainerExecAttach`. -/
def attachFailEnv (labels : Labels) : Env :=
  { sampleEnv labels with execAttach := fun _ => none }

/-- The sample environment with a failing `ContainerExecCreate`. -/
def createFailEnv (labels : Labels) : Env :=
  { sampleEnv labels with execCreate := fun _ _ => none }

/-- A `stop` event of the container `c1`. -/
def stopEvent : Message where
  type := "container"
  action := "stop"
  actorID := "c1"
  attributes := []

/-- The sample environment whose container list holds the container `c1`. -/
def listedEnv (labels : Labels) : Env :=
  { sampleEnv labels with containerList := some ["c1"] }

/-- A `start` event of the container `c1`. -/
def startEvent : Message where
  type := "container"
  action := "start"
  actorID := "c1"
  attributes := []

/-- A `die` event of the container `c2`. -/
def dieEvent : Message where
  type := "container"
  action := "die"
  actorID := "c2"
  attributes := []

/-- An unhealthy `health_status` event of the container `c1`. -/
def unhealthyEvent : Message where
  type := "container"
  action := "health_status"
  actorID := "c1"
  attributes := [("health_status", "unhealthy")]

/-! ## Strings: lemmas -/

theorem splitChars_ne_nil (sep : Char) (s : List Char) : splitChars sep s ≠ [] := by
  cases s with
  | nil => simp [splitChars]
  | cons c cs => unfold splitChars; split <;> simp

theorem splitChars_length_pos (sep : Char) (s : List Char) : 0 < (splitChars sep s).length :=
  List.length_pos.2 (splitChars_ne_nil sep s)

theorem splitChars_of_not_mem (sep : Char) (s : List Char) (h : sep ∉ s) :
    splitChars sep s = [s] := by
  induction s with
  | nil => rfl
  | cons c cs ih =>
    have hc : ¬ c = sep := fun e => h (by simp [e])
    have hcs : sep ∉ cs := fun e => h (by simp [e])
    simp [splitChars, hc, ih hcs]

theorem splitChars_length_cons (sep c : Char) (cs : List Char) :
    (splitChars sep (c :: cs)).length
      = (splitChars sep cs).length + (if c = sep then 1 else 0) := by
  have hpos := splitChars_length_pos sep cs
  by_cases hc : c = sep
  · simp [splitChars, hc]
  · simp [splitChars, hc]
    omega

theorem splitChars_length_one (sep : Char) (s : List Char) :
    (splitChars sep s).length = 1 ↔ sep ∉ s := by
  constructor
  · intro h
    induction s with
    | nil => simp
    | cons c cs ih =>
      rw [splitChars_length_cons] at h
      have hpos := splitChars_length_pos sep cs
      by_cases hc : c = sep
      · rw [if_pos hc] at h
        omega
      · rw [if_neg hc] at h
        have := ih h
        simp only [List.mem_cons, not_or]
        exact ⟨fun e => hc e.symm, this⟩
  · intro h
    rw [splitChars_of_not_mem sep s h]; rfl

theorem splitChars_cron (r : List Char) :
    splitChars '.' ("dockerutil.cron.".data ++ r)
      = "dockerutil".data :: "cron".data :: splitChars '.' r := by
  have h : "dockerutil.cron.".data ++ r
      = 'd' :: 'o' :: 'c' :: 'k' :: 'e' :: 'r' :: 'u' :: 't' :: 'i' :: 'l' :: '.' ::
        'c' :: 'r' :: 'o' :: 'n' :: '.' :: r := rfl
  rw [h]
  simp [splitChars]

theorem hasPrefix_iff (s p : String) :
    HasPrefix s p = true ↔ ∃ r : List Char, s.data = p.data ++ r := by
  unfold HasPrefix
  rw [List.isPrefixOf_iff_prefix]
  constructor
  · rintro ⟨r, hr⟩; exact ⟨r, hr.symm⟩
  · rintro ⟨r, hr⟩; exact ⟨r, hr.symm⟩

theorem split_cron (t : String) :
    Split ("dockerutil.cron." ++ t) '.'
      = "dockerutil" :: "cron" :: (splitChars '.' t.data).map String.mk := by
  unfold Split
  rw [String.data_append, splitChars_cron]
  rfl

/-- The keys that yield a task name are exactly `dockerutil.cron.<t>` with a
dot-free `t`, and the name they yield is `t`. -/
theorem taskOf_eq_some (label t : String) :
    taskOf label = some t ↔ label = "dockerutil.cron." ++ t ∧ '.' ∉ t.data := by
  constructor
  · intro h
    unfold taskOf at h
    split at h
    · rename_i hc
      obtain ⟨hp, hl⟩ := hc
      obtain ⟨r, hr⟩ := (hasPrefix_iff _ _).1 hp
      have hlabel : label = "dockerutil.cron." ++ String.mk r := by
        apply String.ext; rw [String.data_append]; exact hr
      rw [hlabel, split_cron] at hl h
      simp only [List.length_cons, List.length_map] at hl
      have h1 : (splitChars '.' r).length = 1 := by omega
      have hdot := (splitChars_length_one '.' r).1 h1
      rw [splitChars_of_not_mem '.' r hdot] at h
      simp at h
      subst h
      exact ⟨hlabel, hdot⟩
    · cases h
  · rintro ⟨hl, hdot⟩
    subst hl
    unfold taskOf
    have hp : HasPrefix ("dockerutil.cron." ++ t) "dockerutil.cron." = true :=
      (hasPrefix_iff _ _).2 ⟨t.data, String.data_append _ _⟩
    rw [split_cron, splitChars_of_not_mem '.' t.data hdot]
    simp [hp]

theorem taskOf_eq_none (label : String) :
    taskOf label = none ↔
      ¬ (HasPrefix label "dockerutil.cron." = true ∧ (Split label '.').length = 3) := by
  unfold taskOf
  split <;> simp_all

/-- The loop adds the jobs of `registeredTasks`, in order, after the jobs that
were registered before, and touches neither the queue nor the client. -/
theorem loop_spec (env : Env) (containerID : String) (labels : Labels) (keys : List String) :
    ∀ cm : CronManager,
      (createCronJobsLoop env containerID labels keys cm).scheduler.jobs
          = cm.scheduler.jobs ++ (registeredTasks env labels keys).map (jobFor containerID labels)
      ∧ (createCronJobsLoop env containerID labels keys cm).scheduler.runNow
          = cm.scheduler.runNow ++
            ((registeredTasks env labels keys).filter
              (fun t => labelValue labels ("dockerutil.cron." ++ t) = "true")).map
              (jobFor containerID labels)
      ∧ (createCronJobsLoop env containerID labels keys cm).queue = cm.queue
      ∧ (createCronJobsLoop env containerID labels keys cm).cli = cm.cli := by
  induction keys with
  | nil => intro cm; simp [createCronJobsLoop, registeredTasks]
  | cons label rest ih =>
    intro cm
    cases ht : taskOf label with
    | none =>
      have hn := (taskOf_eq_none label).1 ht
      have hreg : registeredTasks env labels (label :: rest) = registeredTasks env labels rest := by
        simp [registeredTasks, List.filterMap_cons, ht]
      rw [hreg]
      unfold createCronJobsLoop
      by_cases hp : HasPrefix label "dockerutil.cron." = true
      · have hl : (Split label '.').length ≠ 3 := fun e => hn ⟨hp, e⟩
        simp only [hp, if_true, hl, ne_eq, not_false_eq_true]
        exact ih cm
      · simp only [hp, Bool.false_eq_true, if_false]
        exact ih cm
    | some t =>
      have hs := ht
      unfold taskOf at hs
      split at hs
      · rename_i hc
        obtain ⟨hp, hl⟩ := hc
        have ht2 : (Split label '.').getD 2 "" = t := by simpa using hs
        unfold createCronJobsLoop
        simp only [hp, if_true, hl, ne_eq, not_true_eq_false, if_false, ht2]
        by_cases hok : accepted env labels t = true
        · have hok2 : env.jobOk (labelValue labels ("dockerutil.cron." ++ t ++ ".spec")) t = true := hok
          have hreg : registeredTasks env labels (label :: rest)
              = t :: registeredTasks env labels rest := by
            simp [registeredTasks, List.filterMap_cons, ht, List.takeWhile_cons, hok]
          rw [hreg]
          simp only [NewJob, hok2, if_true]
          by_cases hb : labelValue labels ("dockerutil.cron." ++ t) = "true"
          · simp only [hb, if_true]
            refine ⟨?_, ?_, ?_, ?_⟩
            · rw [(ih _).1]; simp [logMsg, RunNow, jobFor]
            · rw [(ih _).2.1]; simp [logMsg, RunNow, jobFor, List.filter_cons, hb]
            · rw [(ih _).2.2.1]; simp [logMsg]
            · rw [(ih _).2.2.2]; simp [logMsg]
          · simp only [hb, if_false]
            refine ⟨?_, ?_, ?_, ?_⟩
            · rw [(ih _).1]; simp [logMsg, jobFor]
            · rw [(ih _).2.1]; simp [logMsg, jobFor, List.filter_cons, hb]
            · rw [(ih _).2.2.1]; simp [logMsg]
            · rw [(ih _).2.2.2]; simp [logMsg]
        · have hok2 : env.jobOk (labelValue labels ("dockerutil.cron." ++ t ++ ".spec")) t = false := by
            simpa [accepted] using hok
          have hreg : registeredTasks env labels (label :: rest) = [] := by
            simp [registeredTasks, List.filterMap_cons, ht, List.takeWhile_cons, hok]
          rw [hreg]
          simp [NewJob, hok2, logMsg]
      · cases hs

/-! ## Consequences for `createCronJobs` -/

theorem createCronJobs_jobs (env : Env) (containerID : String) (labels : Labels)
    (cm : CronManager) (h : env.inspect containerID = some labels) :
    (createCronJobs env containerID cm).scheduler.jobs
      = cm.scheduler.jobs ++
        (registeredTasks env labels (labels.map Prod.fst)).map (jobFor containerID labels) := by
  simp only [createCronJobs, h]
  exact (loop_spec env containerID labels _ cm).1

theorem registered_eq (env : Env) (containerID : String) (labels : Labels)
    (cm : CronManager) (h : env.inspect containerID = some labels) :
    registered env containerID cm
      = (registeredTasks env labels (labels.map Prod.fst)).map (jobFor containerID labels) := by
  unfold registered
  rw [createCronJobs_jobs env containerID labels cm h, List.drop_left]

theorem createCronJobs_runNow (env : Env) (containerID : String) (labels : Labels)
    (cm : CronManager) (h : env.inspect containerID = some labels) :
    (createCronJobs env containerID cm).scheduler.runNow
      = cm.scheduler.runNow ++
        ((registeredTasks env labels (labels.map Prod.fst)).filter
          (fun t => labelValue labels ("dockerutil.cron." ++ t) = "true")).map
          (jobFor containerID labels) := by
  simp only [createCronJobs, h]
  exact (loop_spec env containerID labels _ cm).2.1

theorem runRequested_eq (env : Env) (containerID : String) (labels : Labels)
    (cm : CronManager) (h : env.inspect containerID = some labels) :
    runRequested env containerID cm
      = ((registeredTasks env labels (labels.map Prod.fst)).filter
          (fun t => labelValue labels ("dockerutil.cron." ++ t) = "true")).map
          (jobFor containerID labels) := by
  unfold runRequested
  rw [createCronJobs_runNow env containerID labels cm h, List.drop_left]

theorem createCronJobs_inspect_error (env : Env) (containerID : String) (cm : CronManager)
    (h : env.inspect containerID = none) :
    (createCronJobs env containerID cm).scheduler = cm.scheduler := by
  simp [createCronJobs, h, logMsg]

theorem mem_registeredTasks (env : Env) (labels : Labels) (keys : List String) (t : String)
    (h : t ∈ registeredTasks env labels keys) :
    ("dockerutil.cron." ++ t) ∈ keys ∧ '.' ∉ t.data ∧ accepted env labels t = true := by
  unfold registeredTasks at h
  have hmem := List.mem_takeWhile_imp h
  have hsub := (List.takeWhile_sublist (accepted env labels) (l := keys.filterMap taskOf)).subset h
  obtain ⟨k, hk, hkt⟩ := List.mem_filterMap.1 hsub
  obtain ⟨hkeq, hdot⟩ := (taskOf_eq_some k t).1 hkt
  exact ⟨hkeq ▸ hk, hdot, hmem⟩

/-! ## Registered jobs: tag, name, task function (C8) -/

/-- C8: every job that `createCronJobs` adds for container `containerID` is
appended to the job table, carries the single tag `containerID` and a name `t`
taken from a bare key `dockerutil.cron.<t>` of the labels, and one run of its
task function is `Enqueue` of the task made of `containerID` and the value of
`dockerutil.cron.<t>.cmd` (the empty string when absent): with room in the
queue exactly that task is appended and the rest of the state is untouched,
and with a full queue the sender waits and nothing changes. -/
theorem createCronJobs_job_tag_name_task (env : Env) (containerID : String) (labels : Labels)
    (cm : CronManager) (h : env.inspect containerID = some labels) :
    (createCronJobs env containerID cm).scheduler.jobs
        = cm.scheduler.jobs ++ registered env containerID cm
    ∧ ∀ j ∈ registered env containerID cm,
        j.tags = [containerID]
        ∧ ("dockerutil.cron." ++ j.name) ∈ labels.map Prod.fst
        ∧ ∀ st : CronManager,
            fire st j = st.Enqueue
              { containerID := containerID,
                cmd := (labels.lookup ("dockerutil.cron." ++ j.name ++ ".cmd")).getD "" }
            ∧ (st.queue.items.length < st.queue.queueSize →
                fire st j = some { st with queue := { st.queue with items := st.queue.items ++
                  [{ containerID := containerID,
                     cmd := (labels.lookup ("dockerutil.cron." ++ j.name ++ ".cmd")).getD "" }] } })
            ∧ (¬ st.queue.items.length < st.queue.queueSize → fire st j = none) := by
  refine ⟨?_, ?_⟩
  · rw [registered_eq env containerID labels cm h]
    exact createCronJobs_jobs env containerID labels cm h
  · intro j hj
    rw [registered_eq env containerID labels cm h] at hj
    obtain ⟨t, ht, rfl⟩ := List.mem_map.1 hj
    obtain ⟨hkey, _, _⟩ := mem_registeredTasks env labels _ t ht
    refine ⟨rfl, hkey, ?_⟩
    intro st
    refine ⟨rfl, ?_, ?_⟩
    · intro hroom
      simp [fire, jobFor, Chan.send, hroom, labelValue]
    · intro hfull
      simp [fire, jobFor, Chan.send, hfull]

/-- The end-to-end `backup` scenario: one job named `backup` tagged with the
container ID is registered, one immediate run is requested, and that run puts
the task with command `tar -czf /backup.tgz /data` on the queue. -/
theorem createCronJobs_job_tag_name_task_witness :
    (sampleEnv backupLabels).inspect "c1" = some backupLabels
    ∧ jobInfo (handleEvent (sampleEnv backupLabels) startEvent (NewCronManager 100)).scheduler.jobs
        = [("backup", ["c1"], "0 2 * * *")]
    ∧ jobInfo (registered (sampleEnv backupLabels) "c1" (NewCronManager 100))
        = [("backup", ["c1"], "0 2 * * *")]
    ∧ (runRequested (sampleEnv backupLabels) "c1" (NewCronManager 100)).map
        (fun j => (fire (NewCronManager 100) j).map (fun st => st.queue.items))
        = [some [{ containerID := "c1", cmd := "tar -czf /backup.tgz /data" }]]
    ∧ ((createCronJobs (sampleEnv backupLabels) "c1" (NewCronManager 100)).scheduler.jobs
        = (NewCronManager 100).scheduler.jobs
            ++ registered (sampleEnv backupLabels) "c1" (NewCronManager 100)
      ∧ ∀ j ∈ registered (sampleEnv backupLabels) "c1" (NewCronManager 100),
        j.tags = ["c1"]
        ∧ ("dockerutil.cron." ++ j.name) ∈ backupLabels.map Prod.fst
        ∧ ∀ st : CronManager,
            fire st j = st.Enqueue
              { containerID := "c1",
                cmd := (backupLabels.lookup ("dockerutil.cron." ++ j.name ++ ".cmd")).getD "" }
            ∧ (st.queue.items.length < st.queue.queueSize →
                fire st j = some { st with queue := { st.queue with items := st.queue.items ++
                  [{ containerID := "c1",
                     cmd := (backupLabels.lookup ("dockerutil.cron." ++ j.name ++ ".cmd")).getD "" }] } })
            ∧ (¬ st.queue.items.length < st.queue.queueSize → fire st j = none)) :=
  ⟨rfl, by decide, by decide, by decide,
    createCronJobs_job_tag_name_task (sampleEnv backupLabels) "c1" backupLabels
      (NewCronManager 100) rfl⟩

/-! ## Immediate runs (C9) -/

/-- C9: the `RunNow` requests of a call of `createCronJobs` are exactly the
registered jobs whose bare label `dockerutil.cron.<t>` has the value `"true"`,
compared as a string; a registered job whose bare label has any other value
gets no request. -/
theorem createCronJobs_runNow_iff_bare_true (env : Env) (containerID : String)
    (labels : Labels) (cm : CronManager) (h : env.inspect containerID = some labels) :
    (createCronJobs env containerID cm).scheduler.runNow
        = cm.scheduler.runNow ++ runRequested env containerID cm
    ∧ runRequested env containerID cm
        = (registered env containerID cm).filter
            (fun j => (labels.lookup ("dockerutil.cron." ++ j.name)).getD "" = "true")
    ∧ ∀ j ∈ registered env containerID cm,
        (j ∈ runRequested env containerID cm
          ↔ labels.lookup ("dockerutil.cron." ++ j.name) = some "true") := by
  have hfilter : runRequested env containerID cm
        = (registered env containerID cm).filter
            (fun j => (labels.lookup ("dockerutil.cron." ++ j.name)).getD "" = "true") := by
    rw [runRequested_eq env containerID labels cm h, registered_eq env containerID labels cm h,
      List.filter_map]
    rfl
  refine ⟨?_, hfilter, ?_⟩
  · rw [runRequested_eq env containerID labels cm h]
    exact createCronJobs_runNow env containerID labels cm h
  · intro j hj
    rw [hfilter, List.mem_filter]
    constructor
    · rintro ⟨_, hv⟩
      have hv2 : (labels.lookup ("dockerutil.cron." ++ j.name)).getD "" = "true" := by
        simpa using hv
      cases hl : labels.lookup ("dockerutil.cron." ++ j.name) with
      | none => rw [hl] at hv2; exact absurd hv2 (by decide)
      | some v => rw [hl] at hv2; simpa using hv2
    · intro hv
      exact ⟨hj, by simp [hv]⟩

/-- Five registered tasks with toggles `true`, `True`, `1`, empty and `TRUE`:
only the first gets an immediate run. -/
theorem createCronJobs_runNow_iff_bare_true_witness :
    (sampleEnv toggleLabels).inspect "c1" = some toggleLabels
    ∧ (registered (sampleEnv toggleLabels) "c1" (NewCronManager 100)).map (fun j => j.name)
        = ["a", "b", "c", "d", "e"]
    ∧ (runRequested (sampleEnv toggleLabels) "c1" (NewCronManager 100)).map (fun j => j.name)
        = ["a"]
    ∧ ((createCronJobs (sampleEnv toggleLabels) "c1" (NewCronManager 100)).scheduler.runNow
        = (NewCronManager 100).scheduler.runNow
            ++ runRequested (sampleEnv toggleLabels) "c1" (NewCronManager 100)
      ∧ runRequested (sampleEnv toggleLabels) "c1" (NewCronManager 100)
        = (registered (sampleEnv toggleLabels) "c1" (NewCronManager 100)).filter
            (fun j => (toggleLabels.lookup ("dockerutil.cron." ++ j.name)).getD "" = "true")
      ∧ ∀ j ∈ registered (sampleEnv toggleLabels) "c1" (NewCronManager 100),
        (j ∈ runRequested (sampleEnv toggleLabels) "c1" (NewCronManager 100)
          ↔ toggleLabels.lookup ("dockerutil.cron." ++ j.name) = some "true")) :=
  ⟨rfl, by decide, by decide,
    createCronJobs_runNow_iff_bare_true (sampleEnv toggleLabels) "c1" toggleLabels
      (NewCronManager 100) rfl⟩

/-! ## Which keys name a task (C10) -/

theorem splitChars_join (sep : Char) (s : List Char) :
    [sep].intercalate (splitChars sep s) = s := by
  induction s with
  | nil => simp [splitChars, List.intercalate]
  | cons c cs ih =>
    have hne := splitChars_ne_nil sep cs
    cases hsp : splitChars sep cs with
    | nil => exact absurd hsp hne
    | cons p ps =>
      rw [hsp] at ih
      by_cases hc : c = sep
      · simp only [splitChars, hc, if_true, hsp]
        rw [← ih]
        simp [List.intercalate, List.intersperse]
      · simp only [splitChars, hc, if_false, hsp, List.headD_cons, List.tail_cons]
        rw [← ih]
        cases ps <;> simp [List.intercalate, List.intersperse]

theorem isCronTaskKey_iff (key : String) :
    isCronTaskKey key = true ↔ ∃ t, taskOf key = some t := by
  constructor
  · intro h
    unfold isCronTaskKey at h
    split at h
    · rename_i a b c hsp
      simp only [decide_eq_true_eq] at h
      obtain ⟨ha, hb⟩ := h
      subst ha hb
      refine ⟨c, (taskOf_eq_some key c).2 ?_⟩
      unfold Split at hsp
      have hparts : splitChars '.' key.data = ["dockerutil".data, "cron".data, c.data] := by
        have := congrArg (List.map String.data) hsp
        simpa [List.map_map, Function.comp_def] using this
      have hjoin := splitChars_join '.' key.data
      rw [hparts] at hjoin
      have hdata : key.data = "dockerutil.cron.".data ++ c.data := by
        rw [← hjoin]
        simp [List.intercalate, List.intersperse]
      have hkey : key = "dockerutil.cron." ++ c := by
        apply String.ext; rw [String.data_append]; exact hdata
      refine ⟨hkey, ?_⟩
      have hlen : (splitChars '.' key.data).length = 3 := by rw [hparts]; rfl
      rw [hdata, splitChars_cron] at hlen
      simp only [List.length_cons] at hlen
      exact (splitChars_length_one '.' c.data).1 (by omega)
    · cases h
  · rintro ⟨t, ht⟩
    obtain ⟨hk, hdot⟩ := (taskOf_eq_some key t).1 ht
    subst hk
    unfold isCronTaskKey
    rw [split_cron, splitChars_of_not_mem '.' t.data hdot]
    simp

theorem loop_skips_other_keys (env : Env) (containerID : String) (labels : Labels)
    (keys : List String) :
    ∀ cm : CronManager,
      createCronJobsLoop env containerID labels keys cm
        = createCronJobsLoop env containerID labels (keys.filter isCronTaskKey) cm := by
  induction keys with
  | nil => intro cm; rfl
  | cons key rest ih =>
    intro cm
    by_cases hk : isCronTaskKey key = true
    · rw [List.filter_cons, if_pos hk]
      rw [createCronJobsLoop, createCronJobsLoop]
      simp only [ih]
    · rw [List.filter_cons, if_neg hk, ← ih cm]
      have hnone : taskOf key = none := by
        cases ht : taskOf key with
        | none => rfl
        | some t => exact absurd ((isCronTaskKey_iff key).2 ⟨t, ht⟩) hk
      have hn := (taskOf_eq_none key).1 hnone
      rw [createCronJobsLoop]
      by_cases hp : HasPrefix key "dockerutil.cron." = true
      · have hl : (Split key '.').length ≠ 3 := fun e => hn ⟨hp, e⟩
        simp only [hp, if_true, hl, ne_eq, not_false_eq_true]
      · simp only [hp, Bool.false_eq_true, if_false]

/-- C10: the name of every job `createCronJobs` registers is the third segment
of a label key that splits at its dots into exactly `dockerutil`, `cron` and
that name; keys of any other shape are skipped, so that running the loop over
the keys of that shape alone gives the same state. -/
theorem createCronJobs_names_from_bare_keys (env : Env) (containerID : String)
    (labels : Labels) (cm : CronManager) (h : env.inspect containerID = some labels) :
    (∀ j ∈ registered env containerID cm,
        ∃ key ∈ labels.map Prod.fst, Split key '.' = ["dockerutil", "cron", j.name])
    ∧ createCronJobs env containerID cm
        = createCronJobsLoop env containerID labels
            ((labels.map Prod.fst).filter isCronTaskKey) cm
    ∧ ((∀ key ∈ labels.map Prod.fst, isCronTaskKey key = false) →
        registered env containerID cm = []) := by
  have hloop : createCronJobs env containerID cm
        = createCronJobsLoop env containerID labels
            ((labels.map Prod.fst).filter isCronTaskKey) cm := by
    simp only [createCronJobs, h]
    exact loop_skips_other_keys env containerID labels _ cm
  refine ⟨?_, hloop, ?_⟩
  · intro j hj
    rw [registered_eq env containerID labels cm h] at hj
    obtain ⟨t, ht, rfl⟩ := List.mem_map.1 hj
    obtain ⟨hkey, hdot, _⟩ := mem_registeredTasks env labels _ t ht
    refine ⟨_, hkey, ?_⟩
    rw [split_cron, splitChars_of_not_mem '.' t.data hdot]
    rfl
  · intro hall
    have hnil : (labels.map Prod.fst).filter isCronTaskKey = [] := by
      rw [List.filter_eq_nil_iff]
      intro k hk
      simp [hall k hk]
    unfold registered
    rw [hloop, hnil]
    simp [createCronJobsLoop]

/-- Keys with fewer or more segments, or another first or second segment,
give no job; the bare key of the `backup` scenario gives the job `backup`. -/
theorem createCronJobs_names_from_bare_keys_witness :
    (sampleEnv otherShapeLabels).inspect "c1" = some otherShapeLabels
    ∧ otherShapeLabels.map (fun kv => isCronTaskKey kv.1)
        = [false, false, false, false, false, false, false]
    ∧ jobInfo (registered (sampleEnv otherShapeLabels) "c1" (NewCronManager 100)) = []
    ∧ ((∀ j ∈ registered (sampleEnv otherShapeLabels) "c1" (NewCronManager 100),
          ∃ key ∈ otherShapeLabels.map Prod.fst, Split key '.' = ["dockerutil", "cron", j.name])
      ∧ createCronJobs (sampleEnv otherShapeLabels) "c1" (NewCronManager 100)
          = createCronJobsLoop (sampleEnv otherShapeLabels) "c1" otherShapeLabels
              ((otherShapeLabels.map Prod.fst).filter isCronTaskKey) (NewCronManager 100)
      ∧ ((∀ key ∈ otherShapeLabels.map Prod.fst, isCronTaskKey key = false) →
          registered (sampleEnv otherShapeLabels) "c1" (NewCronManager 100) = [])) :=
  ⟨rfl, by decide, by decide,
    createCronJobs_names_from_bare_keys (sampleEnv otherShapeLabels) "c1" otherShapeLabels
      (NewCronManager 100) rfl⟩

/-! ## Label maps and iteration order -/

theorem lookup_eq_some_iff (l : Labels) (hnd : (l.map Prod.fst).Nodup) (k v : String) :
    l.lookup k = some v ↔ (k, v) ∈ l := by
  induction l with
  | nil => simp
  | cons p l ih =>
    obtain ⟨a, b⟩ := p
    simp only [List.map_cons, List.nodup_cons] at hnd
    obtain ⟨hnot, hnd⟩ := hnd
    rw [List.lookup_cons]
    by_cases hka : k = a
    · subst hka
      simp only [beq_self_eq_true, List.mem_cons, Prod.mk.injEq, true_and, Option.some.injEq]
      constructor
      · intro h; exact Or.inl h.symm
      · rintro (h | h)
        · exact h.symm
        · exact absurd (List.mem_map.2 ⟨(k, v), h, rfl⟩) hnot
    · have hbeq : (k == a) = false := by simpa using hka
      simp only [hbeq, List.mem_cons, Prod.mk.injEq, hka, false_and, false_or]
      exact ih hnd

theorem lookup_perm (l l' : Labels) (hnd : (l.map Prod.fst).Nodup) (hp : l'.Perm l)
    (k : String) : l'.lookup k = l.lookup k := by
  have hnd' : (l'.map Prod.fst).Nodup := ((hp.map Prod.fst).nodup_iff).2 hnd
  cases h : l.lookup k with
  | some v =>
    exact (lookup_eq_some_iff l' hnd' k v).2
      (hp.mem_iff.2 ((lookup_eq_some_iff l hnd k v).1 h))
  | none =>
    cases h' : l'.lookup k with
    | none => rfl
    | some v =>
      have := (lookup_eq_some_iff l hnd k v).2
        (hp.mem_iff.1 ((lookup_eq_some_iff l' hnd' k v).1 h'))
      rw [h] at this
      cases this

theorem taskOf_injective (a a' b : String) (h : b ∈ taskOf a) (h' : b ∈ taskOf a') : a = a' := by
  rw [Option.mem_def] at h h'
  rw [((taskOf_eq_some a b).1 h).1, ((taskOf_eq_some a' b).1 h').1]

theorem taskOf_getD (key t : String) (h : taskOf key = some t) :
    (Split key '.').getD 2 "" = t ∧ key ++ ".spec" = "dockerutil.cron." ++ t ++ ".spec" := by
  obtain ⟨hk, hdot⟩ := (taskOf_eq_some key t).1 h
  subst hk
  refine ⟨?_, rfl⟩
  rw [split_cron, splitChars_of_not_mem '.' t.data hdot]
  rfl

/-- When the scheduler accepts the job of every candidate task, the loop
registers all candidates. -/
theorem registeredTasks_all (env : Env) (labels : Labels) (keys : List String)
    (hall : ∀ key ∈ keys, isCronTaskKey key = true →
      env.jobOk ((labels.lookup (key ++ ".spec")).getD "") ((Split key '.').getD 2 "") = true) :
    registeredTasks env labels keys = keys.filterMap taskOf := by
  unfold registeredTasks
  rw [List.takeWhile_eq_self_iff]
  intro u hu
  obtain ⟨k, hk, hku⟩ := List.mem_filterMap.1 hu
  have h1 := hall k hk ((isCronTaskKey_iff k).2 ⟨u, hku⟩)
  obtain ⟨hg, hs⟩ := taskOf_getD k u hku
  rw [hg, hs] at h1
  exact h1

/-! ## One job per bare key (C1) -/

/-- C1, as stated, fails: a label map holding the `.spec`/`.cmd` pair of task
`backup` with an accepted cron expression, but no bare key
`dockerutil.cron.backup`, gets no job at all. -/
theorem createCronJobs_pair_without_bare_key :
    ([("dockerutil.cron.backup.spec", "0 2 * * *"),
      ("dockerutil.cron.backup.cmd", "tar -czf /backup.tgz /data")] : Labels).map Prod.fst
        = ["dockerutil.cron.backup.spec", "dockerutil.cron.backup.cmd"]
    ∧ (sampleEnv [("dockerutil.cron.backup.spec", "0 2 * * *"),
        ("dockerutil.cron.backup.cmd", "tar -czf /backup.tgz /data")]).jobOk "0 2 * * *" "backup"
        = true
    ∧ jobInfo (createCronJobs
        (sampleEnv [("dockerutil.cron.backup.spec", "0 2 * * *"),
          ("dockerutil.cron.backup.cmd", "tar -czf /backup.tgz /data")])
        "c1" (NewCronManager 100)).scheduler.jobs = [] := by
  decide

/-- C1, amended: for a label map (in any iteration order) and a dot-free task
name `t`, no job named `t` is registered when the bare key
`dockerutil.cron.<t>` is absent, whatever `.spec` and `.cmd` keys there are;
and when the bare key is present and the scheduler accepts the job of every
bare key of the map, exactly one job named `t` is registered. -/
theorem createCronJobs_one_job_per_bare_key (env : Env) (containerID : String)
    (labels labels' : Labels) (cm : CronManager) (t : String)
    (hnd : (labels.map Prod.fst).Nodup) (hperm : labels'.Perm labels)
    (hin : env.inspect containerID = some labels') (hdot : '.' ∉ t.data) :
    (("dockerutil.cron." ++ t) ∉ labels.map Prod.fst →
        (registered env containerID cm).countP (fun j => j.name = t) = 0)
    ∧ ((∀ key ∈ labels.map Prod.fst, isCronTaskKey key = true →
          env.jobOk ((labels.lookup (key ++ ".spec")).getD "") ((Split key '.').getD 2 "") = true) →
        ("dockerutil.cron." ++ t) ∈ labels.map Prod.fst →
        (registered env containerID cm).countP (fun j => j.name = t) = 1) := by
  have hkeys : (labels'.map Prod.fst).Perm (labels.map Prod.fst) := hperm.map Prod.fst
  have hcount : (registered env containerID cm).countP (fun j => j.name = t)
      = (registeredTasks env labels' (labels'.map Prod.fst)).count t := by
    rw [registered_eq env containerID labels' cm hin, List.countP_map, List.count_eq_countP]
    apply List.countP_congr
    intro u _
    simp [jobFor]
  constructor
  · intro hno
    rw [hcount, List.count_eq_zero]
    intro hmem
    exact hno (hkeys.mem_iff.1 (mem_registeredTasks env labels' _ t hmem).1)
  · intro hall hkey
    have hall' : ∀ key ∈ labels'.map Prod.fst, isCronTaskKey key = true →
        env.jobOk ((labels'.lookup (key ++ ".spec")).getD "")
          ((Split key '.').getD 2 "") = true := by
      intro key hk hc
      rw [lookup_perm labels labels' hnd hperm]
      exact hall key (hkeys.mem_iff.1 hk) hc
    rw [hcount, registeredTasks_all env labels' _ hall',
      (hkeys.filterMap taskOf).count_eq,
      List.count_eq_of_nodup (List.Nodup.filterMap taskOf_injective hnd)]
    have : t ∈ (labels.map Prod.fst).filterMap taskOf :=
      List.mem_filterMap.2 ⟨_, hkey, (taskOf_eq_some _ t).2 ⟨rfl, hdot⟩⟩
    rw [if_pos this]

/-- The `backup` labels visited in reverse order (bare key first) and in the
listed order both give exactly one job named `backup`. -/
theorem createCronJobs_one_job_per_bare_key_witness :
    (backupLabels.map Prod.fst).Nodup
    ∧ backupLabels.reverse.Perm backupLabels
    ∧ (sampleEnv backupLabels.reverse).inspect "c1" = some backupLabels.reverse
    ∧ '.' ∉ "backup".data
    ∧ ((("dockerutil.cron." ++ "backup") ∉ backupLabels.map Prod.fst →
        (registered (sampleEnv backupLabels.reverse) "c1" (NewCronManager 100)).countP
          (fun j => j.name = "backup") = 0)
      ∧ ((∀ key ∈ backupLabels.map Prod.fst, isCronTaskKey key = true →
          (sampleEnv backupLabels.reverse).jobOk ((backupLabels.lookup (key ++ ".spec")).getD "")
            ((Split key '.').getD 2 "") = true) →
        ("dockerutil.cron." ++ "backup") ∈ backupLabels.map Prod.fst →
        (registered (sampleEnv backupLabels.reverse) "c1" (NewCronManager 100)).countP
          (fun j => j.name = "backup") = 1))
    ∧ (∀ key ∈ backupLabels.map Prod.fst, isCronTaskKey key = true →
          (sampleEnv backupLabels.reverse).jobOk ((backupLabels.lookup (key ++ ".spec")).getD "")
            ((Split key '.').getD 2 "") = true)
    ∧ ("dockerutil.cron." ++ "backup") ∈ backupLabels.map Prod.fst :=
  ⟨by decide, List.reverse_perm _, rfl, by decide,
    createCronJobs_one_job_per_bare_key (sampleEnv backupLabels.reverse) "c1" backupLabels
      backupLabels.reverse (NewCronManager 100) "backup" (by decide) (List.reverse_perm _) rfl
      (by decide),
    by decide, by decide⟩

/-! ## A refused job ends the loop (C2) -/

/-- C2 at its failing input: when the loop visits the refused task `a` before
task `b`, no job is registered, although `b` alone (task `a` absent) is
registered, and so is `b` when the loop visits it before `a`. -/
theorem createCronJobs_refused_job_drops_siblings :
    jobInfo (createCronJobs (sampleEnv siblingLabels) "c1" (NewCronManager 100)).scheduler.jobs
        = []
    ∧ jobInfo (createCronJobs (sampleEnv (siblingLabels.drop 2)) "c1"
        (NewCronManager 100)).scheduler.jobs = [("b", ["c1"], "0 2 * * *")]
    ∧ jobInfo (createCronJobs (sampleEnv siblingLabels.reverse) "c1"
        (NewCronManager 100)).scheduler.jobs = [("b", ["c1"], "0 2 * * *")]
    ∧ (createCronJobs (sampleEnv siblingLabels) "c1" (NewCronManager 100)).log
        = ["Failed to add cron job"] := by
  decide

/-! ## Exec failures (C3) -/

/-- C3 at its failing input: with the `backup` job of container `c1`
registered, a task of `c1` whose exec is created but cannot be attached leaves
the job registered; a failing exec creation, like a `stop` event, removes it. -/
theorem execCronJob_attach_failure_keeps_jobs :
    jobInfo (CronManager.execCronJob (attachFailEnv backupLabels)
        (createCronJobs (attachFailEnv backupLabels) "c1" (NewCronManager 100))
        { containerID := "c1", cmd := "tar -czf /backup.tgz /data" }).scheduler.jobs
      = [("backup", ["c1"], "0 2 * * *")]
    ∧ jobInfo (CronManager.execCronJob (createFailEnv backupLabels)
        (createCronJobs (createFailEnv backupLabels) "c1" (NewCronManager 100))
        { containerID := "c1", cmd := "tar -czf /backup.tgz /data" }).scheduler.jobs
      = []
    ∧ jobInfo (handleEvent (attachFailEnv backupLabels) stopEvent
        (createCronJobs (attachFailEnv backupLabels) "c1" (NewCronManager 100))).scheduler.jobs
      = [] := by
  decide

/-! ## Registering twice (C4) -/

theorem createCronJobs_jobs_append (env : Env) (containerID : String) (cm : CronManager) :
    (createCronJobs env containerID cm).scheduler.jobs
      = cm.scheduler.jobs ++ addedJobs env containerID := by
  unfold addedJobs
  cases h : env.inspect containerID with
  | none => simp [createCronJobs_inspect_error env containerID cm h]
  | some labels => simp [createCronJobs_jobs env containerID labels cm h]

theorem registered_eq_addedJobs (env : Env) (containerID : String) (cm : CronManager) :
    registered env containerID cm = addedJobs env containerID := by
  unfold registered
  rw [createCronJobs_jobs_append, List.drop_left]

theorem addedJobs_tags (env : Env) (containerID : String) :
    ∀ j ∈ addedJobs env containerID, j.tags = [containerID] := by
  intro j hj
  unfold addedJobs at hj
  cases h : env.inspect containerID with
  | none => rw [h] at hj; cases hj
  | some labels =>
    rw [h] at hj
    obtain ⟨t, _, rfl⟩ := List.mem_map.1 hj
    rfl

theorem removeCronJobByTag_jobs (cm : CronManager) (containerID : String) :
    (removeCronJobByTag cm containerID).scheduler.jobs
      = cm.scheduler.jobs.filter (fun j => !(j.tags.contains containerID)) := rfl

theorem filter_untagged_addedJobs (env : Env) (containerID : String) :
    (addedJobs env containerID).filter (fun j => !(j.tags.contains containerID)) = [] := by
  rw [List.filter_eq_nil_iff]
  intro j hj
  simp [addedJobs_tags env containerID j hj]

theorem filter_tagged_addedJobs (env : Env) (containerID : String) :
    (addedJobs env containerID).filter (fun j => j.tags.contains containerID)
      = addedJobs env containerID := by
  rw [List.filter_eq_self]
  intro j hj
  simp [addedJobs_tags env containerID j hj]

theorem addedJobs_names_nodup (env : Env) (containerID : String) (labels : Labels)
    (hin : env.inspect containerID = some labels) (hnd : (labels.map Prod.fst).Nodup) :
    ((addedJobs env containerID).map (fun j => j.name)).Nodup := by
  unfold addedJobs
  rw [hin]
  simp only [List.map_map]
  have hmap : (List.map ((fun j : Job => j.name) ∘ jobFor containerID labels)
      (registeredTasks env labels (labels.map Prod.fst)))
      = registeredTasks env labels (labels.map Prod.fst) := by
    conv_rhs => rw [← List.map_id (registeredTasks env labels (labels.map Prod.fst))]
    rfl
  rw [hmap]
  exact (List.Nodup.filterMap taskOf_injective hnd).sublist (List.takeWhile_sublist _)

/-- C4, as stated, fails: the startup snapshot followed by a `start` event of
the same container, with unchanged labels, leaves two jobs `backup` tagged
`c1`, where the snapshot alone leaves one. -/
theorem createCronJobs_twice_duplicates :
    (listContainersAndCreateCronJobs (listedEnv backupLabels) (NewCronManager 100)).map
        (fun st => jobInfo st.scheduler.jobs)
      = some [("backup", ["c1"], "0 2 * * *")]
    ∧ (listContainersAndCreateCronJobs (listedEnv backupLabels) (NewCronManager 100)).map
        (fun st => jobInfo (handleEvent (listedEnv backupLabels) startEvent st).scheduler.jobs)
      = some [("backup", ["c1"], "0 2 * * *"), ("backup", ["c1"], "0 2 * * *")]
    ∧ jobInfo (createCronJobs (sampleEnv backupLabels) "c1"
        (createCronJobs (sampleEnv backupLabels) "c1" (NewCronManager 100))).scheduler.jobs
      = [("backup", ["c1"], "0 2 * * *"), ("backup", ["c1"], "0 2 * * *")] := by
  decide

/-- C4, amended: adding is repeatable only across a removal.  Running
`createCronJobs` for a container, then `removeCronJobByTag` for it (the `die`
or `stop` event), then `createCronJobs` again leaves the job table of a
removal followed by one run, and in it the jobs tagged with the container have
pairwise different names.  Without the removal the jobs the second run
registers are appended after the jobs the first run registered, whatever the
order in which each run visits the labels, so that a task registered by both
runs is held twice: exactly twice among the jobs of the two runs, at least
twice in the job table. -/
theorem createCronJobs_remove_then_create (env₁ env₂ : Env) (containerID : String)
    (labels : Labels) (cm : CronManager)
    (hin : env₂.inspect containerID = some labels) (hnd : (labels.map Prod.fst).Nodup) :
    (createCronJobs env₂ containerID
        (removeCronJobByTag (createCronJobs env₁ containerID cm) containerID)).scheduler.jobs
      = (createCronJobs env₂ containerID (removeCronJobByTag cm containerID)).scheduler.jobs
    ∧ (((createCronJobs env₂ containerID
          (removeCronJobByTag (createCronJobs env₁ containerID cm) containerID)).scheduler.jobs.filter
            (fun j => j.tags.contains containerID)).map (fun j => j.name)).Nodup
    ∧ (createCronJobs env₂ containerID (createCronJobs env₁ containerID cm)).scheduler.jobs
      = cm.scheduler.jobs ++ registered env₁ containerID cm
          ++ registered env₂ containerID (createCronJobs env₁ containerID cm)
    ∧ ∀ t : String,
        (∃ j ∈ registered env₁ containerID cm, j.name = t) →
        (∃ j ∈ registered env₂ containerID (createCronJobs env₁ containerID cm), j.name = t) →
        2 ≤ (createCronJobs env₂ containerID
              (createCronJobs env₁ containerID cm)).scheduler.jobs.countP
              (fun j => decide (j.name = t) && j.tags.contains containerID)
          ∧ ∀ labels₁ : Labels, env₁.inspect containerID = some labels₁ →
              (labels₁.map Prod.fst).Nodup →
              (registered env₁ containerID cm
                ++ registered env₂ containerID (createCronJobs env₁ containerID cm)).countP
                (fun j => decide (j.name = t)) = 2 := by
  have h1 : (createCronJobs env₂ containerID
        (removeCronJobByTag (createCronJobs env₁ containerID cm) containerID)).scheduler.jobs
      = (createCronJobs env₂ containerID (removeCronJobByTag cm containerID)).scheduler.jobs := by
    rw [createCronJobs_jobs_append, createCronJobs_jobs_append, removeCronJobByTag_jobs,
      removeCronJobByTag_jobs, createCronJobs_jobs_append, List.filter_append,
      filter_untagged_addedJobs, List.append_nil]
  have h3 : (createCronJobs env₂ containerID (createCronJobs env₁ containerID cm)).scheduler.jobs
      = cm.scheduler.jobs ++ registered env₁ containerID cm
          ++ registered env₂ containerID (createCronJobs env₁ containerID cm) := by
    rw [createCronJobs_jobs_append, createCronJobs_jobs_append, registered_eq_addedJobs,
      registered_eq_addedJobs]
  refine ⟨h1, ?_, h3, ?_⟩
  · rw [h1, createCronJobs_jobs_append, removeCronJobByTag_jobs, List.filter_append,
      filter_tagged_addedJobs]
    have hnil : List.filter (fun j : Job => j.tags.contains containerID)
        (List.filter (fun j => !(j.tags.contains containerID)) cm.scheduler.jobs) = [] := by
      rw [List.filter_eq_nil_iff]
      intro j hj
      have := (List.mem_filter.1 hj).2
      simpa using this
    rw [hnil, List.nil_append]
    exact addedJobs_names_nodup env₂ containerID labels hin hnd
  · intro t hfirst hsecond
    obtain ⟨j₁, hj₁, hn₁⟩ := hfirst
    obtain ⟨j₂, hj₂, hn₂⟩ := hsecond
    have ht₁ : j₁.tags = [containerID] :=
      addedJobs_tags env₁ containerID j₁ (registered_eq_addedJobs env₁ containerID cm ▸ hj₁)
    have ht₂ : j₂.tags = [containerID] :=
      addedJobs_tags env₂ containerID j₂ (registered_eq_addedJobs env₂ containerID _ ▸ hj₂)
    have hc₁ : 0 < (registered env₁ containerID cm).countP
        (fun j => decide (j.name = t) && j.tags.contains containerID) :=
      List.countP_pos_iff.2 ⟨j₁, hj₁, by simp [hn₁, ht₁]⟩
    have hc₂ : 0 < (registered env₂ containerID (createCronJobs env₁ containerID cm)).countP
        (fun j => decide (j.name = t) && j.tags.contains containerID) :=
      List.countP_pos_iff.2 ⟨j₂, hj₂, by simp [hn₂, ht₂]⟩
    refine ⟨?_, ?_⟩
    · rw [h3, List.countP_append, List.countP_append]
      omega
    · intro labels₁ hin₁ hnd₁
      have hle : ∀ (env : Env) (st : CronManager) (ls : Labels),
          env.inspect containerID = some ls → (ls.map Prod.fst).Nodup →
          (registered env containerID st).countP (fun j => decide (j.name = t)) ≤ 1 := by
        intro env st ls hls hndls
        have hnames := addedJobs_names_nodup env containerID ls hls hndls
        rw [registered_eq_addedJobs]
        have hcount : (addedJobs env containerID).countP (fun j => decide (j.name = t))
            = ((addedJobs env containerID).map (fun j => j.name)).count t := by
          rw [List.count_eq_countP, List.countP_map]
          apply List.countP_congr
          intro j _
          simp
        rw [hcount]
        exact List.nodup_iff_count_le_one.1 hnames t
      have hp₁ : 0 < (registered env₁ containerID cm).countP (fun j => decide (j.name = t)) :=
        List.countP_pos_iff.2 ⟨j₁, hj₁, by simp [hn₁]⟩
      have hp₂ : 0 < (registered env₂ containerID (createCronJobs env₁ containerID cm)).countP
          (fun j => decide (j.name = t)) :=
        List.countP_pos_iff.2 ⟨j₂, hj₂, by simp [hn₂]⟩
      have hl₁ := hle env₁ cm labels₁ hin₁ hnd₁
      have hl₂ := hle env₂ (createCronJobs env₁ containerID cm) labels hin hnd
      rw [List.countP_append]
      omega

/-- The `backup` container: start, stop, start again leaves the one job
`backup`; two starts with no stop in between, the second visiting the labels
in reverse order, leave the job `backup` twice.  With the two-task labels of
which task `a` is refused, a run visiting `b` first followed by a run visiting
`a` first leaves the job `b` once. -/
theorem createCronJobs_remove_then_create_witness :
    (sampleEnv backupLabels.reverse).inspect "c1" = some backupLabels.reverse
    ∧ (backupLabels.reverse.map Prod.fst).Nodup
    ∧ jobInfo (createCronJobs (sampleEnv backupLabels.reverse) "c1"
        (removeCronJobByTag (createCronJobs (sampleEnv backupLabels) "c1" (NewCronManager 100))
          "c1")).scheduler.jobs = [("backup", ["c1"], "0 2 * * *")]
    ∧ jobInfo (createCronJobs (sampleEnv backupLabels.reverse) "c1"
        (createCronJobs (sampleEnv backupLabels) "c1" (NewCronManager 100))).scheduler.jobs
      = [("backup", ["c1"], "0 2 * * *"), ("backup", ["c1"], "0 2 * * *")]
    ∧ jobInfo (createCronJobs (sampleEnv siblingLabels) "c1"
        (createCronJobs (sampleEnv siblingLabels.reverse) "c1"
          (NewCronManager 100))).scheduler.jobs
      = [("b", ["c1"], "0 2 * * *")]
    ∧ (∃ j ∈ registered (sampleEnv backupLabels) "c1" (NewCronManager 100), j.name = "backup")
    ∧ (∃ j ∈ registered (sampleEnv backupLabels.reverse) "c1"
        (createCronJobs (sampleEnv backupLabels) "c1" (NewCronManager 100)), j.name = "backup")
    ∧ ((createCronJobs (sampleEnv backupLabels.reverse) "c1"
        (removeCronJobByTag (createCronJobs (sampleEnv backupLabels) "c1" (NewCronManager 100))
          "c1")).scheduler.jobs
      = (createCronJobs (sampleEnv backupLabels.reverse) "c1"
          (removeCronJobByTag (NewCronManager 100) "c1")).scheduler.jobs
    ∧ (((createCronJobs (sampleEnv backupLabels.reverse) "c1"
          (removeCronJobByTag (createCronJobs (sampleEnv backupLabels) "c1" (NewCronManager 100))
            "c1")).scheduler.jobs.filter
            (fun j => j.tags.contains "c1")).map (fun j => j.name)).Nodup
    ∧ (createCronJobs (sampleEnv backupLabels.reverse) "c1"
        (createCronJobs (sampleEnv backupLabels) "c1" (NewCronManager 100))).scheduler.jobs
      = (NewCronManager 100).scheduler.jobs
          ++ registered (sampleEnv backupLabels) "c1" (NewCronManager 100)
          ++ registered (sampleEnv backupLabels.reverse) "c1"
              (createCronJobs (sampleEnv backupLabels) "c1" (NewCronManager 100))
    ∧ ∀ t : String,
        (∃ j ∈ registered (sampleEnv backupLabels) "c1" (NewCronManager 100), j.name = t) →
        (∃ j ∈ registered (sampleEnv backupLabels.reverse) "c1"
            (createCronJobs (sampleEnv backupLabels) "c1" (NewCronManager 100)), j.name = t) →
        2 ≤ (createCronJobs (sampleEnv backupLabels.reverse) "c1"
              (createCronJobs (sampleEnv backupLabels) "c1"
                (NewCronManager 100))).scheduler.jobs.countP
              (fun j => decide (j.name = t) && j.tags.contains "c1")
          ∧ ∀ labels₁ : Labels, (sampleEnv backupLabels).inspect "c1" = some labels₁ →
              (labels₁.map Prod.fst).Nodup →
              (registered (sampleEnv backupLabels) "c1" (NewCronManager 100)
                ++ registered (sampleEnv backupLabels.reverse) "c1"
                    (createCronJobs (sampleEnv backupLabels) "c1" (NewCronManager 100))).countP
                (fun j => decide (j.name = t)) = 2) :=
  ⟨rfl, by decide, by decide, by decide, by decide, by decide, by decide,
    createCronJobs_remove_then_create (sampleEnv backupLabels) (sampleEnv backupLabels.reverse)
      "c1" backupLabels.reverse (NewCronManager 100) rfl (by decide)⟩

/-! ## The exec argument list (C5) -/

theorem splitChars_no_sep (sep : Char) (s : List Char) :
    ∀ p ∈ splitChars sep s, sep ∉ p := by
  induction s with
  | nil => simp [splitChars]
  | cons c cs ih =>
    have hne := splitChars_ne_nil sep cs
    cases hsp : splitChars sep cs with
    | nil => exact absurd hsp hne
    | cons q qs =>
      rw [hsp] at ih
      intro p hp
      by_cases hc : c = sep
      · simp only [splitChars, hc, if_true, hsp, List.mem_cons] at hp
        rcases hp with rfl | hp
        · simp
        · exact ih p (List.mem_cons.2 hp)
      · simp only [splitChars, hc, if_false, hsp, List.headD_cons, List.tail_cons,
          List.mem_cons] at hp
        rcases hp with rfl | hp
        · have hq := ih q (List.mem_cons_self _ _)
          simp only [List.mem_cons, not_or]
          exact ⟨fun e => hc e.symm, hq⟩
        · exact ih p (List.mem_cons_of_mem _ hp)

theorem splitChars_length (sep : Char) (s : List Char) :
    (splitChars sep s).length = s.count sep + 1 := by
  induction s with
  | nil => rfl
  | cons c cs ih =>
    rw [splitChars_length_cons, ih, List.count_cons]
    by_cases hc : c = sep
    · simp [hc]
    · simp [hc]

theorem splitChars_append_sep (sep : Char) (w rest : List Char) (hw : sep ∉ w) :
    splitChars sep (w ++ sep :: rest) = w :: splitChars sep rest := by
  induction w with
  | nil => simp [splitChars]
  | cons c cs ih =>
    have hc : ¬ c = sep := fun e => hw (by simp [e])
    have hcs : sep ∉ cs := fun e => hw (by simp [e])
    simp [splitChars, hc, ih hcs]

theorem splitChars_intercalate (sep : Char) (ws : List (List Char)) (hne : ws ≠ [])
    (hws : ∀ w ∈ ws, sep ∉ w) : splitChars sep ([sep].intercalate ws) = ws := by
  induction ws with
  | nil => exact absurd rfl hne
  | cons w rest ih =>
    cases rest with
    | nil =>
      have hone : [sep].intercalate [w] = w := by simp [List.intercalate, List.intersperse]
      rw [hone]
      exact splitChars_of_not_mem sep w (hws w (List.mem_cons_self _ _))
    | cons v vs =>
      have hrec := ih (by simp) (fun x hx => hws x (List.mem_cons_of_mem _ hx))
      have hstep : [sep].intercalate (w :: v :: vs) = w ++ sep :: [sep].intercalate (v :: vs) := by
        simp [List.intercalate, List.intersperse]
      rw [hstep, splitChars_append_sep sep w _ (hws w (List.mem_cons_self _ _)), hrec]

theorem intercalate_go_data (sep acc : String) (l : List String) :
    (String.intercalate.go acc sep l).data
      = acc.data ++ (l.map (fun a => sep.data ++ a.data)).flatten := by
  induction l generalizing acc with
  | nil => simp [String.intercalate.go]
  | cons a as ih =>
    simp [String.intercalate.go, ih, String.data_append, List.append_assoc]

theorem intercalate_data (sep : String) (l : List String) :
    (sep.intercalate l).data = sep.data.intercalate (l.map String.data) := by
  cases l with
  | nil => rfl
  | cons a as =>
    simp only [String.intercalate, intercalate_go_data]
    induction as generalizing a with
    | nil => simp [List.intercalate, List.intersperse]
    | cons b bs ih =>
      have := ih b
      simp only [List.map_cons, List.flatten_cons, List.intercalate, List.intersperse,
        List.append_assoc] at this ⊢
      rw [this]

theorem split_join (s : String) (sep : Char) :
    (String.singleton sep).intercalate (Split s sep) = s := by
  apply String.ext
  rw [intercalate_data]
  unfold Split
  rw [List.map_map]
  have hid : (String.data ∘ String.mk) = (id : List Char → List Char) := rfl
  rw [hid, List.map_id]
  exact splitChars_join sep s.data

theorem split_intercalate (sep : Char) (ws : List String) (hne : ws ≠ [])
    (hws : ∀ w ∈ ws, sep ∉ w.data) :
    Split ((String.singleton sep).intercalate ws) sep = ws := by
  unfold Split
  rw [intercalate_data]
  have hsep : (String.singleton sep).data = [sep] := rfl
  rw [hsep, splitChars_intercalate sep (ws.map String.data) (by simpa using hne)
    (by
      intro w hw
      obtain ⟨x, hx, rfl⟩ := List.mem_map.1 hw
      exact hws x hx)]
  rw [List.map_map]
  have hid : (String.mk ∘ String.data) = (id : String → String) := rfl
  rw [hid, List.map_id]

/-- C5, as stated, fails: a command with a doubled space, a tab and a trailing
space is passed to the runtime with two empty arguments and an argument that
contains the tab; the empty command is passed as one empty argument. -/
theorem execCronJob_args_empty_and_tab :
    (CronManager.execCronJob (sampleEnv []) (NewCronManager 100)
        { containerID := "c1", cmd := "ls  -l\t/tmp " }).cli.execs
      = [("c1", ["ls", "", "-l\t/tmp", ""])]
    ∧ (CronManager.execCronJob (sampleEnv []) (NewCronManager 100)
        { containerID := "c1", cmd := "" }).cli.execs
      = [("c1", [""])] := by
  decide

/-- C5, amended: the argument list `CronManager.execCronJob` passes to the runtime is the
command cut at every single space character and nowhere else: no argument
contains a space, there is one argument more than the command has spaces, the
arguments joined by single spaces give back the command, and a command made
of words without spaces joined by single spaces is passed as exactly these
words. -/
theorem execCronJob_args_split_at_spaces (env : Env) (cm : CronManager) (task : cronJobTask) :
    (CronManager.execCronJob env cm task).cli.execs
        = cm.cli.execs ++ [(task.containerID, Split task.cmd ' ')]
    ∧ (∀ a ∈ Split task.cmd ' ', ' ' ∉ a.data)
    ∧ (Split task.cmd ' ').length = task.cmd.data.count ' ' + 1
    ∧ " ".intercalate (Split task.cmd ' ') = task.cmd
    ∧ ∀ words : List String, words ≠ [] → (∀ w ∈ words, ' ' ∉ w.data) →
        task.cmd = " ".intercalate words → Split task.cmd ' ' = words := by
  refine ⟨?_, ?_, ?_, ?_, ?_⟩
  · unfold CronManager.execCronJob
    simp only
    split
    · simp [removeCronJobByTag, logMsg]
    · split
      · simp [logMsg]
      · simp
  · intro a ha
    unfold Split at ha
    obtain ⟨p, hp, rfl⟩ := List.mem_map.1 ha
    exact splitChars_no_sep ' ' _ p hp
  · unfold Split
    rw [List.length_map, splitChars_length]
  · exact split_join task.cmd ' '
  · intro words hne hws hcmd
    rw [hcmd]
    exact split_intercalate ' ' words hne hws

/-- The `backup` command is passed as its four words. -/
theorem execCronJob_args_split_at_spaces_witness :
    Split "tar -czf /backup.tgz /data" ' ' = ["tar", "-czf", "/backup.tgz", "/data"]
    ∧ ((CronManager.execCronJob (sampleEnv backupLabels) (NewCronManager 100)
          { containerID := "c1", cmd := "tar -czf /backup.tgz /data" }).cli.execs
        = (NewCronManager 100).cli.execs ++ [("c1", Split "tar -czf /backup.tgz /data" ' ')]
      ∧ (∀ a ∈ Split "tar -czf /backup.tgz /data" ' ', ' ' ∉ a.data)
      ∧ (Split "tar -czf /backup.tgz /data" ' ').length
          = "tar -czf /backup.tgz /data".data.count ' ' + 1
      ∧ " ".intercalate (Split "tar -czf /backup.tgz /data" ' ') = "tar -czf /backup.tgz /data"
      ∧ ∀ words : List String, words ≠ [] → (∀ w ∈ words, ' ' ∉ w.data) →
          "tar -czf /backup.tgz /data" = " ".intercalate words →
          Split "tar -czf /backup.tgz /data" ' ' = words) :=
  ⟨by decide,
    execCronJob_args_split_at_spaces (sampleEnv backupLabels) (NewCronManager 100)
      { containerID := "c1", cmd := "tar -czf /backup.tgz /data" }⟩

/-! ## Removal by tag (C6) -/

theorem singleTagged_new (queueSize : Nat) : SingleTagged (NewCronManager queueSize) := by
  intro j hj
  cases hj

theorem singleTagged_createCronJobs (env : Env) (containerID : String) (cm : CronManager)
    (h : SingleTagged cm) : SingleTagged (createCronJobs env containerID cm) := by
  intro j hj
  rw [createCronJobs_jobs_append] at hj
  rcases List.mem_append.1 hj with hj | hj
  · exact h j hj
  · exact ⟨containerID, addedJobs_tags env containerID j hj⟩

theorem singleTagged_removeCronJobByTag (containerID : String) (cm : CronManager)
    (h : SingleTagged cm) : SingleTagged (removeCronJobByTag cm containerID) := by
  intro j hj
  rw [removeCronJobByTag_jobs] at hj
  exact h j (List.mem_filter.1 hj).1

theorem singleTagged_of_jobs_eq (cm cm1 : CronManager)
    (hjobs : cm1.scheduler.jobs = cm.scheduler.jobs) (h : SingleTagged cm) :
    SingleTagged cm1 := by
  intro j hj
  rw [hjobs] at hj
  exact h j hj

theorem singleTagged_execCronJob (env : Env) (cm : CronManager) (task : cronJobTask)
    (h : SingleTagged cm) : SingleTagged (CronManager.execCronJob env cm task) := by
  unfold CronManager.execCronJob
  simp only
  split
  · exact singleTagged_removeCronJobByTag _ _ (singleTagged_of_jobs_eq cm _ rfl h)
  · split
    · exact singleTagged_of_jobs_eq cm _ rfl h
    · exact singleTagged_of_jobs_eq cm _ rfl h

theorem restartUnhealthyContainer_scheduler (env : Env) (cm : CronManager)
    (containerID : String) :
    (restartUnhealthyContainer env cm containerID).2.scheduler = cm.scheduler := by
  unfold restartUnhealthyContainer
  split
  · rfl
  · split
    · split <;> rfl
    · rfl

theorem singleTagged_handleEvent (env : Env) (event : Message) (cm : CronManager)
    (h : SingleTagged cm) : SingleTagged (handleEvent env event cm) := by
  unfold handleEvent
  split
  · exact h
  · simp only
    split
    · exact singleTagged_createCronJobs _ _ _ (singleTagged_of_jobs_eq cm _ rfl h)
    · split
      · exact singleTagged_removeCronJobByTag _ _ (singleTagged_of_jobs_eq cm _ rfl h)
      · split
        · split
          · apply singleTagged_of_jobs_eq cm _ _ h
            split
            · rw [restartUnhealthyContainer_scheduler]; rfl
            · simp only [logMsg]
              rw [restartUnhealthyContainer_scheduler]
          · exact h
        · exact h

/-- C6: handling a `die` or `stop` event of container `C` leaves no job
carrying the tag `C`, keeps every job that does not carry it (in order, with
its multiplicity), and so leaves the jobs tagged with any other container ID
as they were: the jobs whose tag list is that other ID alone, and, in a table
where every job has a single tag, the jobs carrying that other ID. -/
theorem handleEvent_die_stop_removes_only_tagged (env : Env) (event : Message)
    (cm : CronManager) (htype : event.type = ContainerEventType)
    (hact : event.action = "die" ∨ event.action = "stop") :
    handleEvent env event cm
        = removeCronJobByTag (logMsg cm "Container stopped") event.actorID
    ∧ (∀ j ∈ (handleEvent env event cm).scheduler.jobs, event.actorID ∉ j.tags)
    ∧ (handleEvent env event cm).scheduler.jobs
        = cm.scheduler.jobs.filter (fun j => decide (event.actorID ∉ j.tags))
    ∧ (∀ D : String, D ≠ event.actorID →
        (handleEvent env event cm).scheduler.jobs.filter (fun j => decide (j.tags = [D]))
          = cm.scheduler.jobs.filter (fun j => decide (j.tags = [D])))
    ∧ (SingleTagged cm → ∀ D : String, D ≠ event.actorID →
        (handleEvent env event cm).scheduler.jobs.filter (fun j => decide (D ∈ j.tags))
          = cm.scheduler.jobs.filter (fun j => decide (D ∈ j.tags))) := by
  have hne : event.action ≠ "start" := by
    rcases hact with h | h <;> rw [h] <;> decide
  have hev : handleEvent env event cm
      = removeCronJobByTag (logMsg cm "Container stopped") event.actorID := by
    unfold handleEvent
    simp [htype, hne, hact]
  have hjobs : (handleEvent env event cm).scheduler.jobs
      = cm.scheduler.jobs.filter (fun j => decide (event.actorID ∉ j.tags)) := by
    rw [hev, removeCronJobByTag_jobs]
    simp [logMsg]
  refine ⟨hev, ?_, hjobs, ?_, ?_⟩
  · intro j hj
    rw [hjobs] at hj
    simpa using (List.mem_filter.1 hj).2
  · intro D hD
    rw [hjobs, List.filter_filter]
    apply List.filter_congr
    intro j _
    by_cases hj : j.tags = [D]
    · simp [hj, Ne.symm hD]
    · simp [hj]
  · intro hst D hD
    rw [hjobs, List.filter_filter]
    apply List.filter_congr
    intro j hj
    obtain ⟨c, hc⟩ := hst j hj
    by_cases hjD : D ∈ j.tags
    · have hcD : D = c := by simpa [hc] using hjD
      have : event.actorID ∉ j.tags := by
        rw [hc, ← hcD]
        simpa using Ne.symm hD
      simp [hjD, this]
    · simp [hjD]

/-- With the `backup` job registered for `c1` and for `c2`, a `die` event of
`c2` leaves the job of `c1` and nothing else. -/
theorem handleEvent_die_stop_removes_only_tagged_witness :
    dieEvent.type = ContainerEventType
    ∧ (dieEvent.action = "die" ∨ dieEvent.action = "stop")
    ∧ jobInfo (handleEvent (sampleEnv backupLabels) dieEvent
        (createCronJobs (sampleEnv backupLabels) "c2"
          (createCronJobs (sampleEnv backupLabels) "c1" (NewCronManager 100)))).scheduler.jobs
      = [("backup", ["c1"], "0 2 * * *")]
    ∧ SingleTagged (createCronJobs (sampleEnv backupLabels) "c2"
          (createCronJobs (sampleEnv backupLabels) "c1" (NewCronManager 100)))
    ∧ (handleEvent (sampleEnv backupLabels) dieEvent
          (createCronJobs (sampleEnv backupLabels) "c2"
            (createCronJobs (sampleEnv backupLabels) "c1" (NewCronManager 100)))
        = removeCronJobByTag (logMsg
            (createCronJobs (sampleEnv backupLabels) "c2"
              (createCronJobs (sampleEnv backupLabels) "c1" (NewCronManager 100)))
            "Container stopped") dieEvent.actorID
      ∧ (∀ j ∈ (handleEvent (sampleEnv backupLabels) dieEvent
            (createCronJobs (sampleEnv backupLabels) "c2"
              (createCronJobs (sampleEnv backupLabels) "c1" (NewCronManager 100)))).scheduler.jobs,
          dieEvent.actorID ∉ j.tags)
      ∧ (handleEvent (sampleEnv backupLabels) dieEvent
            (createCronJobs (sampleEnv backupLabels) "c2"
              (createCronJobs (sampleEnv backupLabels) "c1" (NewCronManager 100)))).scheduler.jobs
          = (createCronJobs (sampleEnv backupLabels) "c2"
              (createCronJobs (sampleEnv backupLabels) "c1"
                (NewCronManager 100))).scheduler.jobs.filter
              (fun j => decide (dieEvent.actorID ∉ j.tags))
      ∧ (∀ D : String, D ≠ dieEvent.actorID →
          (handleEvent (sampleEnv backupLabels) dieEvent
            (createCronJobs (sampleEnv backupLabels) "c2"
              (createCronJobs (sampleEnv backupLabels) "c1"
                (NewCronManager 100)))).scheduler.jobs.filter (fun j => decide (j.tags = [D]))
            = (createCronJobs (sampleEnv backupLabels) "c2"
              (createCronJobs (sampleEnv backupLabels) "c1"
                (NewCronManager 100))).scheduler.jobs.filter (fun j => decide (j.tags = [D])))
      ∧ (SingleTagged (createCronJobs (sampleEnv backupLabels) "c2"
            (createCronJobs (sampleEnv backupLabels) "c1" (NewCronManager 100))) →
          ∀ D : String, D ≠ dieEvent.actorID →
          (handleEvent (sampleEnv backupLabels) dieEvent
            (createCronJobs (sampleEnv backupLabels) "c2"
              (createCronJobs (sampleEnv backupLabels) "c1"
                (NewCronManager 100)))).scheduler.jobs.filter (fun j => decide (D ∈ j.tags))
            = (createCronJobs (sampleEnv backupLabels) "c2"
              (createCronJobs (sampleEnv backupLabels) "c1"
                (NewCronManager 100))).scheduler.jobs.filter (fun j => decide (D ∈ j.tags)))) :=
  ⟨rfl, Or.inl rfl, by decide,
    singleTagged_createCronJobs _ _ _ (singleTagged_createCronJobs _ _ _ (singleTagged_new 100)),
    handleEvent_die_stop_removes_only_tagged (sampleEnv backupLabels) dieEvent
      (createCronJobs (sampleEnv backupLabels) "c2"
        (createCronJobs (sampleEnv backupLabels) "c1" (NewCronManager 100)))
      rfl (Or.inl rfl)⟩

/-! ## Autoheal (C7) -/

/-- C7: for a container event `health_status` with attribute `unhealthy` of a
container that can be inspected, `handleEvent` sends exactly one restart
request for that container when its label `dockerutil.autoheal` is `"true"`
and none when the label is absent or has another value; the scheduler (jobs
and run requests) and the queue are unchanged in both cases. -/
theorem handleEvent_unhealthy_autoheal (env : Env) (event : Message) (cm : CronManager)
    (labels : Labels) (htype : event.type = ContainerEventType)
    (hact : event.action = "health_status")
    (hattr : event.attributes.lookup "health_status" = some "unhealthy")
    (hin : env.inspect event.actorID = some labels) :
    (labels.lookup "dockerutil.autoheal" = some "true" →
        (handleEvent env event cm).cli.restarts = cm.cli.restarts ++ [event.actorID])
    ∧ (labels.lookup "dockerutil.autoheal" ≠ some "true" →
        (handleEvent env event cm).cli.restarts = cm.cli.restarts)
    ∧ (handleEvent env event cm).scheduler = cm.scheduler
    ∧ (handleEvent env event cm).queue = cm.queue := by
  have hne1 : event.action ≠ "start" := by rw [hact]; decide
  have hne2 : ¬ (event.action = "die" ∨ event.action = "stop") := by rw [hact]; decide
  have hval : labelValue event.attributes "health_status" = "unhealthy" := by
    simp [labelValue, hattr]
  have hlab : labelValue labels "dockerutil.autoheal" = "true"
      ↔ labels.lookup "dockerutil.autoheal" = some "true" := by
    unfold labelValue
    cases labels.lookup "dockerutil.autoheal" with
    | none => simp
    | some v => simp
  unfold handleEvent
  simp only [htype, ne_eq, not_true_eq_false, if_false, hne1, hne2, hact, if_true, hval,
    restartUnhealthyContainer, hin]
  by_cases hauto : labels.lookup "dockerutil.autoheal" = some "true"
  · have hl := hlab.2 hauto
    simp only [hl, if_true]
    by_cases hok : env.restartOk event.actorID = true
    · simp [hok, hauto, logMsg]
    · simp [hok, hauto, logMsg]
  · have hl : ¬ labelValue labels "dockerutil.autoheal" = "true" := fun e => hauto (hlab.1 e)
    simp [hl, hauto, logMsg]

/-- With `dockerutil.autoheal` set to `true` one restart of `c1` is requested;
with the label unset, or set to `True`, none is. -/
theorem handleEvent_unhealthy_autoheal_witness :
    unhealthyEvent.type = ContainerEventType
    ∧ unhealthyEvent.action = "health_status"
    ∧ unhealthyEvent.attributes.lookup "health_status" = some "unhealthy"
    ∧ (sampleEnv [("dockerutil.autoheal", "true")]).inspect unhealthyEvent.actorID
        = some [("dockerutil.autoheal", "true")]
    ∧ (handleEvent (sampleEnv [("dockerutil.autoheal", "true")]) unhealthyEvent
        (NewCronManager 100)).cli.restarts = ["c1"]
    ∧ (handleEvent (sampleEnv []) unhealthyEvent (NewCronManager 100)).cli.restarts = []
    ∧ (handleEvent (sampleEnv [("dockerutil.autoheal", "True")]) unhealthyEvent
        (NewCronManager 100)).cli.restarts = []
    ∧ ((([("dockerutil.autoheal", "true")] : Labels).lookup "dockerutil.autoheal" = some "true" →
          (handleEvent (sampleEnv [("dockerutil.autoheal", "true")]) unhealthyEvent
            (NewCronManager 100)).cli.restarts
          = (NewCronManager 100).cli.restarts ++ [unhealthyEvent.actorID])
      ∧ (([("dockerutil.autoheal", "true")] : Labels).lookup "dockerutil.autoheal" ≠ some "true" →
          (handleEvent (sampleEnv [("dockerutil.autoheal", "true")]) unhealthyEvent
            (NewCronManager 100)).cli.restarts = (NewCronManager 100).cli.restarts)
      ∧ (handleEvent (sampleEnv [("dockerutil.autoheal", "true")]) unhealthyEvent
          (NewCronManager 100)).scheduler = (NewCronManager 100).scheduler
      ∧ (handleEvent (sampleEnv [("dockerutil.autoheal", "true")]) unhealthyEvent
          (NewCronManager 100)).queue = (NewCronManager 100).queue) :=
  ⟨rfl, rfl, by decide, rfl, by decide, by decide, by decide,
    handleEvent_unhealthy_autoheal (sampleEnv [("dockerutil.autoheal", "true")]) unhealthyEvent
      (NewCronManager 100) [("dockerutil.autoheal", "true")] rfl rfl (by decide) rfl⟩

end Dockerutil
